import Mathlib

/-!
Verification of the passfuse virtual filesystem core.

The definitions below are a shallow embedding of the current revision of the
repository: the `pass` package tree reader / secret helpers and the `fs`
package FUSE handlers (`allocateInode`, `getDirEnt`, `locateChildren`,
`NewPassFS`, `getSize`, `LookUpInode`, `GetInodeAttributes`, `ReadDir`,
`ReadFile`).  Go maps are modelled as insertion-ordered association lists
(a new binding is prepended; lookup takes the most recent binding), Go byte
strings as lists of byte values, the mutex-guarded handlers as pure state
transformers (the mutex makes each handler atomic with respect to the shared
state), and the external `pass` decryption subprocess as an oracle parameter.
`getSize`, `lookUpInode` additionally return the number of invocations of the
decryption oracle performed by the call, which instruments the
"at most one decryption" guarantee without changing the computed results.
-/

/-- Decidable equality of results, used to evaluate concrete scenarios. -/
instance {ε α : Type} [DecidableEq ε] [DecidableEq α] : DecidableEq (Except ε α) := fun x y =>
  match x, y with
  | .ok a, .ok b => if h : a = b then .isTrue (by rw [h]) else .isFalse (by simp [h])
  | .error a, .error b => if h : a = b then .isTrue (by rw [h]) else .isFalse (by simp [h])
  | .ok _, .error _ => .isFalse (by simp)
  | .error _, .ok _ => .isFalse (by simp)

namespace Passfuse

/-- Byte values of a Go string (Go strings are byte sequences). -/
abbrev Byte := Nat

/-- The newline byte, the separator used by the first-line projection. -/
def newlineByte : Byte := 10

/-- pass.NodeType: which projection of a secret a file inode serves
(Contents is the Go zero value). -/
inductive NodeType where
  | contents
  | firstLine
deriving DecidableEq, Repr

/-- fuseops.InodeAttributes; unset Go struct fields are zero. -/
structure InodeAttributes where
  size : Nat := 0
  nlink : Nat := 0
  mode : Nat := 0
  atime : Nat := 0
  mtime : Nat := 0
  crtime : Nat := 0
  uid : Nat := 0
  gid : Nat := 0
deriving DecidableEq, Repr

/-- fuseutil.DirentType (only DT_File and DT_Directory are used). -/
inductive DirentType where
  | file
  | directory
deriving DecidableEq, Repr

/-- fuseutil.Dirent: one child entry of a directory. -/
structure Dirent where
  offset : Nat
  inode : Nat
  name : String
  dtype : DirentType
deriving DecidableEq, Repr

/-- fs.inodeInfo: the record stored in the inode table. -/
structure InodeInfo where
  attributes : InodeAttributes := {}
  dir : Bool := false
  children : List Dirent := []
  secret : String := ""
  inodeType : NodeType := .contents
deriving DecidableEq, Repr

/-- fs.PassFsOptions: which content projections are enabled. -/
structure PassFsOptions where
  contentFiles : Bool := false
  firstLineFiles : Bool := false
deriving DecidableEq, Repr

/-- fs.passFS: the filesystem server state.  The two Go maps are modelled as
association lists where insertion prepends and lookup returns the most
recently inserted binding for a key. -/
structure PassFS where
  user : Nat := 0
  group : Nat := 0
  inodes : List (Nat × InodeInfo) := []
  allocatableInode : Nat := 0
  sizeMap : List (Nat × Nat) := []
  options : PassFsOptions := {}
deriving DecidableEq, Repr

/-- Association-list lookup: the most recent (leftmost) binding wins,
matching Go map assignment/overwrite semantics under the prepend model. -/
def lookupA {α : Type} (l : List (Nat × α)) (k : Nat) : Option α :=
  (l.find? (fun p => p.1 == k)).map (fun p => p.2)

/-- fuseops.RootInodeID. -/
def rootInodeID : Nat := 1

/-- fs.dirPermission (0500). -/
def dirPermission : Nat := 0o500

/-- fs.filePermission (0400). -/
def filePermission : Nat := 0o400

/-- os.ModeDir (bit 31 of os.FileMode). -/
def modeDirBit : Nat := 2 ^ 31

/-- The encryption-file suffix of the secret store (".gpg"). -/
def secretFileSuffix : String := ".gpg"

/-- Display-name suffix of the full-body projection. -/
def secretContentsSuffix : String := ".contents"

/-- Display-name suffix of the first-line projection. -/
def firstLineSuffix : String := ".first-line"

/-- fs.suffixMap: projection kind to display-name suffix. -/
def suffixMap : NodeType → String
  | .contents => secretContentsSuffix
  | .firstLine => firstLineSuffix

/-- One hour, the attribute cache validity returned by the handlers
(time instants are modelled as natural numbers of seconds). -/
def attributeCacheHour : Nat := 3600

/-- Filesystem-level errors: fuse.ENOENT, fuse.EIO, or a generic Go error
value carrying a message (which the host dispatch library maps to EIO). -/
inductive FuseErr where
  | enoent
  | eio
  | msg (s : String)
deriving DecidableEq, Repr

/-- pass.Node: the tree produced by the secret tree reader. -/
inductive PassNode where
  | mk (children : List PassNode) (isLeaf : Bool) (secret : String)
deriving Repr

/-- Children of a tree node. -/
def PassNode.children : PassNode → List PassNode
  | .mk c _ _ => c

/-- Leaf flag of a tree node. -/
def PassNode.isLeaf : PassNode → Bool
  | .mk _ l _ => l

/-- Backing secret path of a tree node. -/
def PassNode.secret : PassNode → String
  | .mk _ _ s => s

/-- strings.Split on a one-character separator, keeping empty segments; the
result is never the empty list.  (Defined on character lists so that it is
structurally recursive and evaluates inside the kernel.) -/
def splitOnChar (sep : Char) : List Char → List (List Char)
  | [] => [[]]
  | c :: rest =>
    let r := splitOnChar sep rest
    if c = sep then [] :: r
    else
      match r with
      | [] => [[c]]
      | x :: xs => (c :: x) :: xs

/-- fs.getSecretBaseName: last slash-separated segment of the secret path.
(The Go panic branch for an empty split result is unreachable: splitting
always yields at least one segment.) -/
def getSecretBaseName (node : PassNode) : String :=
  ⟨(splitOnChar '/' node.secret.data).getLastD []⟩

/-- Whether pat is an initial segment of the character list. -/
def startsWithSeq : List Char → List Char → Bool
  | [], _ => true
  | _ :: _, [] => false
  | p :: ps, c :: cs => p == c && startsWithSeq ps cs

/-- strings.Replace with count 1 on character lists: replace the leftmost
occurrence of pat (an empty pat is inserted at the start, as in Go). -/
def replaceFirstChars (pat rep : List Char) : List Char → List Char
  | [] => if pat = [] then rep else []
  | c :: cs =>
    if startsWithSeq pat (c :: cs) then rep ++ (c :: cs).drop pat.length
    else c :: replaceFirstChars pat rep cs

/-- strings.Replace with count 1: replace the first occurrence of old. -/
def replaceFirst (s old repl : String) : String :=
  ⟨replaceFirstChars old.data repl.data s.data⟩

/-- fs.allocateInode: return the current counter value and increment it
(the Go mutex makes this atomic; here it is a pure state transformer). -/
def allocateInode (fs : PassFS) : Nat × PassFS :=
  (fs.allocatableInode, { fs with allocatableInode := fs.allocatableInode + 1 })

/-- fs.getDirEnt: allocate a file inode for one projection of a leaf secret
and record it in the inode table. -/
def getDirEnt (fs : PassFS) (node : PassNode) (offset : Nat) (nodeType : NodeType) :
    Dirent × PassFS :=
  let baseName := getSecretBaseName node
  let suffix := suffixMap nodeType
  let displayedName := replaceFirst baseName secretFileSuffix suffix
  let alloc := allocateInode fs
  let childInode := alloc.1
  let fs1 := alloc.2
  let childEnt : Dirent :=
    { offset := offset, inode := childInode, name := displayedName, dtype := .file }
  let info : InodeInfo :=
    { attributes := { nlink := 1, mode := filePermission },
      dir := false, secret := node.secret, inodeType := nodeType }
  (childEnt, { fs1 with inodes := (childInode, info) :: fs1.inodes })

mutual

/-- fs.locateChildren: depth-first build of the inode graph.  A leaf
contributes one dirent per enabled projection at consecutive offsets; an
internal node builds its children (1-based offsets), allocates its own
directory inode and contributes a single dirent for itself. -/
def locateChildren (fs : PassFS) (node : PassNode) (offset : Nat) :
    List Dirent × PassFS :=
  match node with
  | .mk children isLeaf secret =>
    if isLeaf then
      let s1 : List Dirent × Nat × PassFS :=
        if fs.options.contentFiles then
          let r := getDirEnt fs (.mk children isLeaf secret) offset .contents
          ([r.1], offset + 1, r.2)
        else
          ([], offset, fs)
      if s1.2.2.options.firstLineFiles then
        let r := getDirEnt s1.2.2 (.mk children isLeaf secret) s1.2.1 .firstLine
        (s1.1 ++ [r.1], r.2)
      else
        (s1.1, s1.2.2)
    else
      let rc := locateChildrenList fs children 1
      let alloc := allocateInode rc.2
      let nodeInode := alloc.1
      let nodeEnt : Dirent :=
        { offset := offset, inode := nodeInode,
          name := getSecretBaseName (.mk children isLeaf secret), dtype := .directory }
      let info : InodeInfo :=
        { attributes := { nlink := 1, mode := dirPermission ||| modeDirBit },
          dir := true, secret := secret, children := rc.1 }
      ([nodeEnt], { alloc.2 with inodes := (nodeInode, info) :: alloc.2.inodes })

/-- The loop over a list of sibling nodes: each recursion result is assigned
sequential offsets starting at the running 1-based index, which advances by
the number of dirents the sibling contributed. -/
def locateChildrenList (fs : PassFS) (nodes : List PassNode) (index : Nat) :
    List Dirent × PassFS :=
  match nodes with
  | [] => ([], fs)
  | child :: rest =>
    let rc := locateChildren fs child index
    let rr := locateChildrenList rc.2 rest (index + rc.1.length)
    (rc.1 ++ rr.1, rr.2)

end

/-- The mount-time build pass of fs.NewPassFS, applied to an already read
tree: starting from a fresh state whose inode counter is RootInodeID+1,
build all children of the root (the Go loop in NewPassFS is exactly the
sibling loop of locateChildren) and finally record the root inode under the
reserved RootInodeID. -/
def buildFS (user group : Nat) (rootNode : PassNode) (options : PassFsOptions) : PassFS :=
  let fs0 : PassFS :=
    { user := user, group := group, inodes := [],
      allocatableInode := rootInodeID + 1, sizeMap := [], options := options }
  let rc := locateChildrenList fs0 rootNode.children 1
  let rootInfo : InodeInfo :=
    { attributes := { nlink := 1, mode := dirPermission ||| modeDirBit },
      dir := true, children := rc.1 }
  { rc.2 with inodes := (rootInodeID, rootInfo) :: rc.2.inodes }

/-- fs.NewPassFS: the tree read (pass.GetPassTree, an external effect) is
modelled by its result; a read failure aborts the mount, otherwise the
build pass always succeeds (both projections disabled only logs a warning). -/
def newPassFS (user group : Nat) (treeResult : Except String PassNode)
    (options : PassFsOptions) : Except String PassFS :=
  match treeResult with
  | .error e => .error e
  | .ok rootNode => .ok (buildFS user group rootNode options)

/-- Inode table lookup. -/
def lookupInode (fs : PassFS) (id : Nat) : Option InodeInfo :=
  lookupA fs.inodes id

/-- Size cache lookup. -/
def lookupSize (fs : PassFS) (id : Nat) : Option Nat :=
  lookupA fs.sizeMap id

/-- fs.findChildInode: linear scan of a children list by display name. -/
def findChildInode (name : String) (children : List Dirent) : Except FuseErr Nat :=
  match children.find? (fun e => e.name == name) with
  | some e => .ok e.inode
  | none => .error .enoent

/-- fs.getSize: if the size is cached return it, otherwise resolve the inode,
invoke the decryption collaborator (the two-argument pass.GetSecretSize,
passed here as the oracle getSecretSizeFn) and cache the result.  The third
component counts how many times the oracle was invoked by this call (0 or 1);
it is observational instrumentation only. -/
def getSize (getSecretSizeFn : String → NodeType → Except String Nat)
    (fs : PassFS) (id : Nat) : Except FuseErr Nat × PassFS × Nat :=
  match lookupSize fs id with
  | some size => (.ok size, fs, 0)
  | none =>
    match lookupInode fs id with
    | none => (.error (.msg ("cannot find inode for " ++ toString id)), fs, 0)
    | some inode =>
      match getSecretSizeFn inode.secret inode.inodeType with
      | .error e =>
        (.error (.msg ("error determining size for secret " ++ inode.secret ++ ": " ++ e)),
          fs, 1)
      | .ok size => (.ok size, { fs with sizeMap := (id, size) :: fs.sizeMap }, 1)

/-- fs.patchAttributes: stamp the current instant on the three timestamps and
fill in the owning user/group. -/
def patchAttributes (fs : PassFS) (now : Nat) (attr : InodeAttributes) : InodeAttributes :=
  { attr with atime := now, mtime := now, crtime := now, uid := fs.user, gid := fs.group }

/-- fs.GetInodeAttributes: the stored attributes of an existing inode with
patched timestamps, plus the attribute-cache expiration of one hour. -/
def getInodeAttributes (fs : PassFS) (now : Nat) (id : Nat) :
    Except FuseErr (InodeAttributes × Nat) :=
  match lookupInode fs id with
  | none => .error .enoent
  | some info => .ok (patchAttributes fs now info.attributes, now + attributeCacheHour)

/-- The result copied into fuseops.LookUpInodeOp.Entry. -/
structure ChildEntry where
  child : Nat
  attributes : InodeAttributes
  attributesExpiration : Nat
deriving DecidableEq, Repr

/-- fs.LookUpInode: resolve the parent, find the child by display name, take
the stored attributes (a missing inode yields the Go zero value), fill the
size from getSize (propagating its failure), stamp the one-hour validity and
patch the timestamps.  The third component is the oracle invocation count
inherited from getSize. -/
def lookUpInode (getSecretSizeFn : String → NodeType → Except String Nat)
    (fs : PassFS) (now : Nat) (parent : Nat) (name : String) :
    Except FuseErr ChildEntry × PassFS × Nat :=
  match lookupInode fs parent with
  | none => (.error .enoent, fs, 0)
  | some parentInfo =>
    match findChildInode name parentInfo.children with
    | .error e => (.error e, fs, 0)
    | .ok childInode =>
      let attrs0 := ((lookupInode fs childInode).map InodeInfo.attributes).getD {}
      match getSize getSecretSizeFn fs childInode with
      | (.error e, fs1, c) => (.error e, fs1, c)
      | (.ok secretSize, fs1, c) =>
        (.ok { child := childInode,
               attributes := patchAttributes fs now { attrs0 with size := secretSize },
               attributesExpiration := now + attributeCacheHour }, fs1, c)

/-- The fuseutil.WriteDirent loop of fs.ReadDir: entries carrying the
sentinel offset 0 are skipped; otherwise an entry is serialized when it fits
into the remaining destination space (cap is the destination length,
direntSize the serialized size of an entry) and the loop stops at the first
entry that does not fit.  Returns the emitted entries and the final
BytesRead. -/
def writeDirents (direntSize : Dirent → Nat) (cap : Nat) :
    Nat → List Dirent → List Dirent × Nat
  | bytesRead, [] => ([], bytesRead)
  | bytesRead, e :: rest =>
    if e.offset = 0 then writeDirents direntSize cap bytesRead rest
    else
      let n := if bytesRead + direntSize e ≤ cap then direntSize e else 0
      if n = 0 then ([], bytesRead)
      else
        let r := writeDirents direntSize cap (bytesRead + n) rest
        (e :: r.1, r.2)

/-- fs.ReadDir: an unknown inode is ENOENT, a file inode is EIO, a cursor
beyond the entry count is EIO; otherwise serialize entries starting at the
cursor into a destination of cap bytes. -/
def readDir (direntSize : Dirent → Nat) (fs : PassFS) (cap : Nat)
    (id : Nat) (cursor : Nat) : Except FuseErr (List Dirent × Nat) :=
  match lookupInode fs id with
  | none => .error .enoent
  | some info =>
    if !info.dir then .error .eio
    else
      let entries := info.children
      if entries.length < cursor then .error .eio
      else .ok (writeDirents direntSize cap 0 (entries.drop cursor))

/-- strings.Reader.ReadAt with the io.EOF special case of fs.ReadFile: the
bytes of the half-open range, clamped to the end of the content; a range at
or beyond the end is empty and not an error. -/
def readAt (content : List Byte) (dstLen : Nat) (offset : Nat) : List Byte :=
  (content.drop offset).take dstLen

/-- fs.ReadFile: resolve the inode, fetch the payload selected by the
projection kind (pass.GetSecret for Contents, pass.GetSecretFirstLine for
FirstLine, both external subprocess calls passed as oracles) and serve the
requested byte range. -/
def readFile (getSecretFn getSecretFirstLineFn : String → Except String (List Byte))
    (fs : PassFS) (id : Nat) (offset : Nat) (dstLen : Nat) : Except FuseErr (List Byte) :=
  match lookupInode fs id with
  | none => .error (.msg ("inode " ++ toString id ++ " not found"))
  | some inode =>
    let secretContent :=
      match inode.inodeType with
      | .contents => getSecretFn inode.secret
      | .firstLine => getSecretFirstLineFn inode.secret
    match secretContent with
    | .error e => .error (.msg e)
    | .ok content => .ok (readAt content dstLen offset)

/-- strings.Split on the newline byte: the segments of the body, keeping
empty segments; the result is never the empty list. -/
def splitOnNl : List Byte → List (List Byte)
  | [] => [[]]
  | b :: rest =>
    let r := splitOnNl rest
    if b = newlineByte then [] :: r
    else
      match r with
      | [] => [[b]]
      | x :: xs => (b :: x) :: xs

/-- pass.GetFirstLine: split the body on newlines; error when the split
yields no segments, otherwise the first segment. -/
def getFirstLine (secretBody : List Byte) : Except String (List Byte) :=
  let lines := splitOnNl secretBody
  if lines.length = 0 then .error "couldnt find any lines in secret body"
  else .ok (lines.headD [])

/-- Modelled from the spec: the current fs layer calls a first-line
derivation (pass.GetSecretFirstLine and the first-line branch of the
two-argument pass.GetSecretSize) whose pass-package revision is absent from
src; per the spec, the first-line view is the first segment of the
newline-split full text, including its trailing newline when the source
contains one, and an empty result is a usage error rather than a valid
secret. -/
def specFirstLineView (body : List Byte) : Except String (List Byte) :=
  let segs := splitOnNl body
  let firstSeg := segs.headD []
  if firstSeg = [] then .error "empty first line is a usage error"
  else if 1 < segs.length then .ok (firstSeg ++ [newlineByte])
  else .ok firstSeg

/-- Modelled from the spec: pass.GetSecretFirstLine (absent from src, called
by fs.ReadFile) obtains the full text from the decryption collaborator and
derives the first-line view. -/
def specGetSecretFirstLine (getSecretFn : String → Except String (List Byte))
    (secretName : String) : Except String (List Byte) :=
  (getSecretFn secretName).bind specFirstLineView

/-- Modelled from the spec: the two-argument pass.GetSecretSize (absent from
src, called by fs.getSize) obtains the relevant payload — full body for
Contents, first-line view for FirstLine — and measures its exact byte
length. -/
def specGetSecretSize (getSecretFn : String → Except String (List Byte))
    (secretName : String) (nodeType : NodeType) : Except String Nat :=
  match getSecretFn secretName with
  | .error e => .error e
  | .ok body =>
    match nodeType with
    | .contents => .ok body.length
    | .firstLine => (specFirstLineView body).map List.length

/-- Byte values of an ASCII string literal, used for concrete scenarios. -/
def asciiBytes (s : String) : List Byte :=
  s.data.map Char.toNat

/-!  Basic lemmas about the embedded operations. -/

/-- Splitting a byte string on newlines always yields at least one segment
(exactly as strings.Split in Go), so the error branch of pass.GetFirstLine
is unreachable. -/
theorem splitOnNl_ne_nil (bs : List Byte) : splitOnNl bs ≠ [] := by
  induction bs with
  | nil => simp [splitOnNl]
  | cons b rest ih =>
    simp only [splitOnNl]
    split
    · simp
    · cases h : splitOnNl rest with
      | nil => simp
      | cons x xs => simp

/-- The WriteDirent loop emits an initial segment of the entries that do not
carry the sentinel offset 0, in order. -/
theorem writeDirents_emitted_take (direntSize : Dirent → Nat) (cap : Nat) :
    ∀ (es : List Dirent) (br : Nat),
      ∃ m, (writeDirents direntSize cap br es).1 =
        (es.filter (fun e => e.offset != 0)).take m := by
  intro es
  induction es with
  | nil => intro br; exact ⟨0, by simp [writeDirents]⟩
  | cons e rest ih =>
    intro br
    simp only [writeDirents]
    by_cases h0 : e.offset = 0
    · simpa [h0] using ih br
    · obtain ⟨m, hm⟩ := ih (br + direntSize e)
      by_cases hfit : br + direntSize e ≤ cap
      · by_cases hsz : direntSize e = 0
        · exact ⟨0, by simp [h0, hfit, hsz]⟩
        · refine ⟨m + 1, ?_⟩
          simp [h0, hfit, hsz, hm]
      · exact ⟨0, by simp [h0, hfit]⟩

/-- When every entry fits (the destination is at least the total serialized
size), the WriteDirent loop emits exactly the non-sentinel entries and
advances BytesRead by their total size. -/
theorem writeDirents_all (direntSize : Dirent → Nat) (cap : Nat) :
    ∀ (es : List Dirent) (br : Nat),
      (∀ e ∈ es, 0 < direntSize e) →
      br + ((es.filter (fun e => e.offset != 0)).map direntSize).sum ≤ cap →
      writeDirents direntSize cap br es =
        (es.filter (fun e => e.offset != 0),
          br + ((es.filter (fun e => e.offset != 0)).map direntSize).sum) := by
  intro es
  induction es with
  | nil => intro br _ _; simp [writeDirents]
  | cons e rest ih =>
    intro br hpos hfit
    simp only [writeDirents]
    by_cases h0 : e.offset = 0
    · have := ih br (fun x hx => hpos x (by simp [hx])) (by simpa [h0] using hfit)
      simpa [h0] using this
    · have hfilter :
          (e :: rest).filter (fun e => e.offset != 0) =
            e :: rest.filter (fun e => e.offset != 0) := by
        simp [List.filter_cons, h0]
      rw [hfilter] at hfit ⊢
      simp only [List.map_cons, List.sum_cons] at hfit ⊢
      have hefit : br + direntSize e ≤ cap := by omega
      have hepos : 0 < direntSize e := hpos e (by simp)
      have hrec := ih (br + direntSize e) (fun x hx => hpos x (by simp [hx]))
        (by omega)
      simp [h0, hefit, Nat.ne_of_gt hepos, hrec]
      omega

/-- Well-formedness of one inode table entry: a directory's children carry
the consecutive 1-based listing offsets 1, 2, ..., n in order. -/
def wfInode (p : Nat × InodeInfo) : Prop :=
  p.2.dir = true →
    p.2.children.map (fun e => e.offset) = List.range' 1 p.2.children.length

mutual

/-- Build-pass invariant for a single node: the options are untouched, the
inode counter advances by the number of allocations k, the inode table grows
by a prefix whose keys are exactly the counter values handed out (most recent
first), every inserted directory record is well formed, and the contributed
dirents carry consecutive offsets starting at the requested one. -/
theorem locateChildren_spec (fs : PassFS) (node : PassNode) (off : Nat) :
    ∃ nw k,
      (locateChildren fs node off).2.options = fs.options ∧
      (locateChildren fs node off).2.allocatableInode = fs.allocatableInode + k ∧
      (locateChildren fs node off).2.inodes = nw ++ fs.inodes ∧
      nw.map Prod.fst = (List.range' fs.allocatableInode k).reverse ∧
      (∀ p ∈ nw, wfInode p) ∧
      (locateChildren fs node off).1.map (fun e => e.offset) =
        List.range' off (locateChildren fs node off).1.length := by
  cases node with
  | mk children isLeaf secret =>
    cases isLeaf with
    | true =>
      by_cases hc : fs.options.contentFiles <;> by_cases hf : fs.options.firstLineFiles
      · refine ⟨[(fs.allocatableInode + 1,
            { attributes := { nlink := 1, mode := filePermission }, dir := false,
              secret := secret, inodeType := .firstLine }),
          (fs.allocatableInode,
            { attributes := { nlink := 1, mode := filePermission }, dir := false,
              secret := secret, inodeType := .contents })], 2, ?_, ?_, ?_, ?_, ?_, ?_⟩ <;>
          simp [locateChildren, getDirEnt, allocateInode, hc, hf, wfInode,
            PassNode.secret, List.range'_succ, List.range'_one]
      · refine ⟨[(fs.allocatableInode,
            { attributes := { nlink := 1, mode := filePermission }, dir := false,
              secret := secret, inodeType := .contents })], 1, ?_, ?_, ?_, ?_, ?_, ?_⟩ <;>
          simp [locateChildren, getDirEnt, allocateInode, hc, hf, wfInode,
            PassNode.secret, List.range'_succ, List.range'_one]
      · refine ⟨[(fs.allocatableInode,
            { attributes := { nlink := 1, mode := filePermission }, dir := false,
              secret := secret, inodeType := .firstLine })], 1, ?_, ?_, ?_, ?_, ?_, ?_⟩ <;>
          simp [locateChildren, getDirEnt, allocateInode, hc, hf, wfInode,
            PassNode.secret, List.range'_succ, List.range'_one]
      · refine ⟨[], 0, ?_, ?_, ?_, ?_, ?_, ?_⟩ <;>
          simp [locateChildren, getDirEnt, allocateInode, hc, hf]
    | false =>
      obtain ⟨nw, k, hopt, halloc, hin, hkeys, hwf, hoff⟩ :=
        locateChildrenList_spec fs children 1
      refine ⟨((locateChildrenList fs children 1).2.allocatableInode,
          { attributes := { nlink := 1, mode := dirPermission ||| modeDirBit }, dir := true,
            children := (locateChildrenList fs children 1).1, secret := secret }) :: nw, k + 1,
        ?_, ?_, ?_, ?_, ?_, ?_⟩
      · simp [locateChildren, allocateInode, hopt]
      · simp [locateChildren, allocateInode, halloc]; omega
      · simp [locateChildren, allocateInode, hin]
      · simp only [locateChildren, allocateInode, List.map_cons, hkeys, halloc]
        rw [List.range'_1_concat]
        simp
      · intro p hp
        rcases List.mem_cons.mp hp with h | h
        · subst h
          intro _
          simpa using hoff
        · exact hwf p h
      · simp [locateChildren, allocateInode, List.range'_one]

/-- Build-pass invariant for a sibling list, with the running 1-based index:
same shape as locateChildren_spec, the contributed dirents of all siblings
carrying consecutive offsets starting at the index. -/
theorem locateChildrenList_spec (fs : PassFS) (nodes : List PassNode) (index : Nat) :
    ∃ nw k,
      (locateChildrenList fs nodes index).2.options = fs.options ∧
      (locateChildrenList fs nodes index).2.allocatableInode = fs.allocatableInode + k ∧
      (locateChildrenList fs nodes index).2.inodes = nw ++ fs.inodes ∧
      nw.map Prod.fst = (List.range' fs.allocatableInode k).reverse ∧
      (∀ p ∈ nw, wfInode p) ∧
      (locateChildrenList fs nodes index).1.map (fun e => e.offset) =
        List.range' index (locateChildrenList fs nodes index).1.length := by
  cases nodes with
  | nil => exact ⟨[], 0, by simp [locateChildrenList]⟩
  | cons child rest =>
    obtain ⟨nw1, k1, hopt1, halloc1, hin1, hkeys1, hwf1, hoff1⟩ :=
      locateChildren_spec fs child index
    obtain ⟨nw2, k2, hopt2, halloc2, hin2, hkeys2, hwf2, hoff2⟩ :=
      locateChildrenList_spec (locateChildren fs child index).2 rest
        (index + (locateChildren fs child index).1.length)
    refine ⟨nw2 ++ nw1, k1 + k2, ?_, ?_, ?_, ?_, ?_, ?_⟩
    · simp [locateChildrenList, hopt2, hopt1]
    · simp [locateChildrenList, halloc2, halloc1]; omega
    · simp [locateChildrenList, hin2, hin1]
    · simp only [locateChildrenList, List.map_append, hkeys2, hkeys1, halloc1]
      rw [← List.reverse_append, List.range'_append_1, Nat.add_comm k2 k1]
    · intro p hp
      rcases List.mem_append.mp hp with h | h
      · exact hwf2 p h
      · exact hwf1 p h
    · simp only [locateChildrenList, List.map_append, List.length_append, hoff1, hoff2]
      rw [List.range'_append_1, Nat.add_comm (locateChildren fs child index).1.length]

end

/-- Every entry of the built inode table is well formed: directory children
carry the consecutive 1-based offsets 1, ..., n. -/
theorem buildFS_wf (u g : Nat) (tree : PassNode) (opts : PassFsOptions) :
    ∀ p ∈ (buildFS u g tree opts).inodes, wfInode p := by
  obtain ⟨nw, k, hopt, halloc, hin, hkeys, hwf, hoff⟩ :=
    locateChildrenList_spec
      { user := u, group := g, inodes := [], allocatableInode := rootInodeID + 1,
        sizeMap := [], options := opts } tree.children 1
  intro p hp
  simp only [buildFS] at hp
  rcases List.mem_cons.mp hp with h | h
  · subst h
    intro _
    simpa using hoff
  · rw [hin] at h
    exact hwf p (by simpa using h)

/-- The keys of the built inode table, in insertion order: the reserved root
id followed by the reversed run of consecutively allocated ids; the
allocation order is therefore exactly rootInodeID+1, rootInodeID+2, .... -/
theorem buildFS_keys (u g : Nat) (tree : PassNode) (opts : PassFsOptions) :
    ∃ k, (buildFS u g tree opts).inodes.map Prod.fst =
      rootInodeID :: (List.range' (rootInodeID + 1) k).reverse := by
  obtain ⟨nw, k, hopt, halloc, hin, hkeys, hwf, hoff⟩ :=
    locateChildrenList_spec
      { user := u, group := g, inodes := [], allocatableInode := rootInodeID + 1,
        sizeMap := [], options := opts } tree.children 1
  refine ⟨k, ?_⟩
  simp only [buildFS, List.map_cons]
  rw [hin]
  simpa using hkeys

/-- Looking up any directory inode of a built filesystem yields well-formed
children offsets. -/
theorem lookupInode_buildFS_wf (u g : Nat) (tree : PassNode) (opts : PassFsOptions)
    (id : Nat) (info : InodeInfo)
    (h : lookupInode (buildFS u g tree opts) id = some info) (hdir : info.dir = true) :
    info.children.map (fun e => e.offset) = List.range' 1 info.children.length := by
  simp only [lookupInode, lookupA, Option.map_eq_some'] at h
  obtain ⟨p, hfind, hsnd⟩ := h
  have hmem := List.mem_of_find?_eq_some hfind
  have := buildFS_wf u g tree opts p hmem
  rw [← hsnd]
  exact this (by rw [hsnd]; exact hdir)

/-- Dropping from a consecutive run leaves the consecutive tail. -/
theorem range'_drop_eq (s n c : Nat) (h : c ≤ n) :
    (List.range' s n).drop c = List.range' (s + c) (n - c) := by
  have hsplit : List.range' s n = List.range' s c ++ List.range' (s + c) (n - c) := by
    rw [List.range'_append_1]
    congr 1
    omega
  rw [hsplit]
  exact List.drop_left' (by simp)

/-- Taking from a consecutive run keeps the consecutive prefix. -/
theorem range'_take_eq (s n c : Nat) (h : c ≤ n) :
    (List.range' s n).take c = List.range' s c := by
  have hsplit : List.range' s n = List.range' s c ++ List.range' (s + c) (n - c) := by
    rw [List.range'_append_1]
    congr 1
    omega
  rw [hsplit]
  exact List.take_left' (by simp)

/-- Taking any number of elements from a consecutive run. -/
theorem range'_take_min (s n c : Nat) :
    (List.range' s n).take c = List.range' s (min c n) := by
  rcases Nat.le_total c n with h | h
  · rw [range'_take_eq s n c h, Nat.min_eq_left h]
  · rw [List.take_of_length_le (by simpa using h), Nat.min_eq_right h]

/-- Reading a file over a list of contiguous sub-range lengths, starting at
the given offset, concatenating the chunks and propagating any failure.
This is the composition the spec's partition property quantifies over. -/
def readConcat (getSecretFn getSecretFirstLineFn : String → Except String (List Byte))
    (fs : PassFS) (id : Nat) : List Nat → Nat → Except FuseErr (List Byte)
  | [], _ => .ok []
  | l :: ls, off =>
    match readFile getSecretFn getSecretFirstLineFn fs id off l with
    | .error e => .error e
    | .ok chunk =>
      match readConcat getSecretFn getSecretFirstLineFn fs id ls (off + l) with
      | .error e => .error e
      | .ok rest => .ok (chunk ++ rest)

/-!  The concrete scenario of the spec: a leaf email/work with full body
"secret123\nuser@x.com\n" and both projections enabled.  These definitions
are shared by the concrete witnesses below. -/

/-- The leaf node email/work (its secret path keeps the store suffix). -/
def workLeaf : PassNode := .mk [] true "email/work.gpg"

/-- The directory node email. -/
def emailDir : PassNode := .mk [workLeaf] false "email"

/-- The scenario tree: a root with the single directory email. -/
def scenarioTree : PassNode := .mk [emailDir] false ""

/-- Both projections enabled. -/
def bothOptions : PassFsOptions := { contentFiles := true, firstLineFiles := true }

/-- The built scenario filesystem.  Allocation: inode 2 = work.contents,
inode 3 = work.first-line, inode 4 = email, inode 1 = root. -/
def scenarioFS : PassFS := buildFS 0 0 scenarioTree bothOptions

/-- The decrypted scenario body (21 bytes). -/
def scenarioBody : List Byte := asciiBytes "secret123\nuser@x.com\n"

/-- The decryption collaborator of the scenario: pass.GetSecret knows the
one secret email/work.gpg. -/
def scenarioGetSecret : String → Except String (List Byte) :=
  fun name => if name == "email/work.gpg" then .ok scenarioBody else .error "error getting secret"

/-- The inode record of work.contents in the scenario. -/
def workContentsInfo : InodeInfo :=
  { attributes := { nlink := 1, mode := filePermission }, dir := false,
    secret := "email/work.gpg", inodeType := .contents }

/-- Helper for the partition property: under a fixed inode and payload, the
chunked read over lengths ls starting at off returns the sub-range of length
ls.sum starting at off. -/
theorem readConcat_spec (getSecretFn getSecretFirstLineFn : String → Except String (List Byte))
    (fs : PassFS) (id : Nat) (ino : InodeInfo) (P : List Byte)
    (hino : lookupInode fs id = some ino)
    (hP : (match ino.inodeType with
            | .contents => getSecretFn ino.secret
            | .firstLine => getSecretFirstLineFn ino.secret) = .ok P) :
    ∀ (ls : List Nat) (off : Nat),
      readConcat getSecretFn getSecretFirstLineFn fs id ls off =
        .ok ((P.drop off).take ls.sum) := by
  have hread : ∀ off l, readFile getSecretFn getSecretFirstLineFn fs id off l =
      .ok ((P.drop off).take l) := by
    intro off l
    simp only [readFile, hino]
    rw [hP]
    simp [readAt]
  intro ls
  induction ls with
  | nil => intro off; simp [readConcat]
  | cons l ls ih =>
    intro off
    rw [readConcat, hread off l, ih (off + l)]
    have hdd : P.drop (off + l) = (P.drop off).drop l := by
      rw [List.drop_drop, Nat.add_comm]
    simp only [hdd, List.sum_cons]
    rw [List.take_add]

/-!  Claim theorems. -/

/-- C1: getSize is idempotent and decrypts at most once per inode id: a
first call on an uncached id resolves the inode, obtains the byte length
from the decryption collaborator exactly once and stores it in the size
cache; any subsequent call for the same id returns the identical value with
zero collaborator invocations and an unchanged state, whatever collaborator
is supplied, so at most one decryption per inode id is ever performed. -/
theorem c1_getSize_idempotent_decrypts_once
    (getSecretSizeFn : String → NodeType → Except String Nat)
    (fs : PassFS) (id : Nat) (ino : InodeInfo) (v : Nat)
    (hcache : lookupSize fs id = none)
    (hino : lookupInode fs id = some ino)
    (horacle : getSecretSizeFn ino.secret ino.inodeType = .ok v) :
    getSize getSecretSizeFn fs id =
      (.ok v, { fs with sizeMap := (id, v) :: fs.sizeMap }, 1) ∧
    lookupSize { fs with sizeMap := (id, v) :: fs.sizeMap } id = some v ∧
    (∀ getSecretSizeFn2 : String → NodeType → Except String Nat,
      getSize getSecretSizeFn2 { fs with sizeMap := (id, v) :: fs.sizeMap } id =
        (.ok v, { fs with sizeMap := (id, v) :: fs.sizeMap }, 0)) := by
  have hcached : lookupSize { fs with sizeMap := (id, v) :: fs.sizeMap } id = some v := by
    simp [lookupSize, lookupA]
  refine ⟨?_, hcached, ?_⟩
  · simp [getSize, hcache, hino, horacle]
  · intro fn2
    simp [getSize, hcached]

/-- C1 witness: the scenario filesystem, inode 2 (work.contents), value 21. -/
theorem c1_getSize_witness :
    lookupSize scenarioFS 2 = none ∧
    lookupInode scenarioFS 2 = some workContentsInfo ∧
    specGetSecretSize scenarioGetSecret workContentsInfo.secret workContentsInfo.inodeType
      = .ok 21 ∧
    (getSize (specGetSecretSize scenarioGetSecret) scenarioFS 2 =
        (.ok 21, { scenarioFS with sizeMap := (2, 21) :: scenarioFS.sizeMap }, 1) ∧
      lookupSize { scenarioFS with sizeMap := (2, 21) :: scenarioFS.sizeMap } 2 = some 21 ∧
      (∀ fn2 : String → NodeType → Except String Nat,
        getSize fn2 { scenarioFS with sizeMap := (2, 21) :: scenarioFS.sizeMap } 2 =
          (.ok 21, { scenarioFS with sizeMap := (2, 21) :: scenarioFS.sizeMap }, 0))) :=
  ⟨by decide, by decide, by decide,
    c1_getSize_idempotent_decrypts_once (specGetSecretSize scenarioGetSecret)
      scenarioFS 2 workContentsInfo 21 (by decide) (by decide) (by decide)⟩

/-- C4: for a file inode whose decrypted payload is P, readFile serves
exactly the half-open byte range clamped to the payload, a request at or
beyond the end returns zero bytes without error, and concatenating reads
over any partition of [0, |P|) into contiguous sub-ranges reproduces P. -/
theorem c4_readfile_ranges
    (getSecretFn getSecretFirstLineFn : String → Except String (List Byte))
    (fs : PassFS) (id : Nat) (ino : InodeInfo) (P : List Byte)
    (hino : lookupInode fs id = some ino)
    (hP : (match ino.inodeType with
            | .contents => getSecretFn ino.secret
            | .firstLine => getSecretFirstLineFn ino.secret) = .ok P) :
    (∀ byteOffset len,
        readFile getSecretFn getSecretFirstLineFn fs id byteOffset len =
          .ok ((P.drop byteOffset).take len)) ∧
    (∀ byteOffset len, P.length ≤ byteOffset →
        readFile getSecretFn getSecretFirstLineFn fs id byteOffset len = .ok []) ∧
    (∀ ls : List Nat, ls.sum = P.length →
        readConcat getSecretFn getSecretFirstLineFn fs id ls 0 = .ok P) := by
  have hread : ∀ off l, readFile getSecretFn getSecretFirstLineFn fs id off l =
      .ok ((P.drop off).take l) := by
    intro off l
    simp only [readFile, hino]
    rw [hP]
    simp [readAt]
  refine ⟨hread, ?_, ?_⟩
  · intro off l hoff
    rw [hread off l, List.drop_eq_nil_of_le hoff]
    simp
  · intro ls hsum
    rw [readConcat_spec getSecretFn getSecretFirstLineFn fs id ino P hino hP ls 0, hsum]
    simp

/-- C4 witness: the scenario filesystem, inode 2, the 21-byte body, read in
chunks 9 + 12. -/
theorem c4_readfile_witness :
    lookupInode scenarioFS 2 = some workContentsInfo ∧
    (match workContentsInfo.inodeType with
      | .contents => scenarioGetSecret workContentsInfo.secret
      | .firstLine => specGetSecretFirstLine scenarioGetSecret workContentsInfo.secret)
      = .ok scenarioBody ∧
    ((∀ byteOffset len,
        readFile scenarioGetSecret (specGetSecretFirstLine scenarioGetSecret)
            scenarioFS 2 byteOffset len =
          .ok ((scenarioBody.drop byteOffset).take len)) ∧
      (∀ byteOffset len, scenarioBody.length ≤ byteOffset →
        readFile scenarioGetSecret (specGetSecretFirstLine scenarioGetSecret)
            scenarioFS 2 byteOffset len = .ok []) ∧
      (∀ ls : List Nat, ls.sum = scenarioBody.length →
        readConcat scenarioGetSecret (specGetSecretFirstLine scenarioGetSecret)
            scenarioFS 2 ls 0 = .ok scenarioBody)) :=
  ⟨by decide, by decide,
    c4_readfile_ranges scenarioGetSecret (specGetSecretFirstLine scenarioGetSecret)
      scenarioFS 2 workContentsInfo scenarioBody (by decide) (by decide)⟩

/-- C8: the empty-first-segment rejection claimed by the spec does not
happen: pass.GetFirstLine can never fail, because splitting always yields at
least one segment (the guard is dead code), and on the body
"\nuser@x.com\n", whose first segment before the first newline is empty, it
returns the empty byte string as a valid result instead of an error. -/
theorem c8_first_line_empty_not_rejected :
    (∀ secretBody : List Byte, ∃ v, getFirstLine secretBody = .ok v) ∧
    getFirstLine (asciiBytes "\nuser@x.com\n") = .ok [] := by
  constructor
  · intro secretBody
    refine ⟨(splitOnNl secretBody).headD [], ?_⟩
    have h := splitOnNl_ne_nil secretBody
    simp [getFirstLine, List.length_eq_zero, h]
  · decide

/-- C10: on a directory inode with n children, readDirectory fails with the
I/O-class error EIO for every cursor strictly greater than n, while the
cursor n itself succeeds and emits zero entries. -/
theorem c10_readdir_cursor_bounds (direntSize : Dirent → Nat) (fs : PassFS)
    (cap id : Nat) (info : InodeInfo)
    (hino : lookupInode fs id = some info) (hdir : info.dir = true) :
    (∀ cursor, info.children.length < cursor →
        readDir direntSize fs cap id cursor = .error .eio) ∧
    readDir direntSize fs cap id info.children.length = .ok ([], 0) := by
  constructor
  · intro cursor hc
    simp [readDir, hino, hdir, hc]
  · simp [readDir, hino, hdir, List.drop_length, writeDirents]

/-- C10 witness: the scenario email directory (inode 4, two children). -/
theorem c10_readdir_witness :
    lookupInode scenarioFS 4 =
      some { attributes := { nlink := 1, mode := dirPermission ||| modeDirBit },
             dir := true,
             children := [{ offset := 1, inode := 2, name := "work.contents", dtype := .file },
                          { offset := 2, inode := 3, name := "work.first-line", dtype := .file }],
             secret := "email" } ∧
    ((∀ cursor, 2 < cursor →
        readDir (fun _ => 30) scenarioFS 100 4 cursor = .error .eio) ∧
      readDir (fun _ => 30) scenarioFS 100 4 2 = .ok ([], 0)) := by
  refine ⟨by decide, ?_⟩
  have h := c10_readdir_cursor_bounds (fun _ => 30) scenarioFS 100 4
    { attributes := { nlink := 1, mode := dirPermission ||| modeDirBit },
      dir := true,
      children := [{ offset := 1, inode := 2, name := "work.contents", dtype := .file },
                   { offset := 2, inode := 3, name := "work.first-line", dtype := .file }],
      secret := "email" } (by decide) (by decide)
  simpa using h

/-- C6: over the whole build pass, for any input tree and configuration, the
inode table keys in insertion order are the reserved root id followed by the
reversed run of consecutively allocated ids, so the allocated ids (in
allocation order, which under the prepend model is the reverse of the
non-root prefix) are the consecutive run rootInodeID+1, rootInodeID+2, ...:
pairwise distinct, strictly increasing, never reused, and none collides with
the reserved root id. -/
theorem c6_inode_ids_fresh_increasing (u g : Nat) (tree : PassNode) (opts : PassFsOptions) :
    ∃ k, (buildFS u g tree opts).inodes.map Prod.fst =
        rootInodeID :: (List.range' (rootInodeID + 1) k).reverse ∧
      (List.range' (rootInodeID + 1) k).Nodup ∧
      List.Chain' (fun a b => a < b) (List.range' (rootInodeID + 1) k) ∧
      rootInodeID ∉ List.range' (rootInodeID + 1) k := by
  obtain ⟨k, hk⟩ := buildFS_keys u g tree opts
  refine ⟨k, hk, List.nodup_range' _ _, (List.pairwise_lt_range' _ _).chain', ?_⟩
  simp [List.mem_range'_1]

/-- The subset of projection kinds enabled by the configuration, in the
order the build emits them. -/
def enabledKinds (o : PassFsOptions) : List NodeType :=
  (if o.contentFiles then [NodeType.contents] else []) ++
    (if o.firstLineFiles then [NodeType.firstLine] else [])

/-- C7: a leaf contributes to its parent exactly one file entry per enabled
projection — two entries with both enabled, one with one, zero with both
disabled — each backed by the leaf's secret, and with both projections
disabled the mount itself still succeeds. -/
theorem c7_leaf_projection_entries (fs : PassFS) (node : PassNode) (off : Nat)
    (hleaf : node.isLeaf = true) :
    ((locateChildren fs node off).1.map
        (fun e => Option.map InodeInfo.inodeType
          (lookupInode (locateChildren fs node off).2 e.inode))
      = (enabledKinds fs.options).map some) ∧
    ((locateChildren fs node off).1.length =
      (if fs.options.contentFiles then 1 else 0) +
        (if fs.options.firstLineFiles then 1 else 0)) ∧
    (∀ e ∈ (locateChildren fs node off).1,
      e.dtype = DirentType.file ∧
        Option.map InodeInfo.secret (lookupInode (locateChildren fs node off).2 e.inode)
          = some node.secret) ∧
    (∀ u g tree, newPassFS u g (.ok tree)
        { contentFiles := false, firstLineFiles := false } =
      .ok (buildFS u g tree { contentFiles := false, firstLineFiles := false })) := by
  cases node with
  | mk children isLeaf secret =>
    cases isLeaf with
    | false => simp [PassNode.isLeaf] at hleaf
    | true =>
      refine ⟨?_, ?_, ?_, fun u g tree => rfl⟩ <;>
        by_cases hc : fs.options.contentFiles <;>
          by_cases hf : fs.options.firstLineFiles <;>
            simp [locateChildren, getDirEnt, allocateInode, lookupInode, lookupA,
              enabledKinds, hc, hf, PassNode.secret] <;>
              first
                | exact ⟨⟨_, _, ⟨rfl, rfl⟩, rfl⟩, _, _, ⟨rfl, rfl⟩, rfl⟩
                | exact ⟨_, _, ⟨rfl, rfl⟩, rfl⟩

/-- C7 witness: the scenario leaf with both projections enabled, built from
a fresh state. -/
theorem c7_leaf_witness :
    workLeaf.isLeaf = true ∧
    (((locateChildren
          { user := 0, group := 0, inodes := [], allocatableInode := 2,
            sizeMap := [], options := bothOptions } workLeaf 1).1.map
        (fun e => Option.map InodeInfo.inodeType
          (lookupInode (locateChildren
            { user := 0, group := 0, inodes := [], allocatableInode := 2,
              sizeMap := [], options := bothOptions } workLeaf 1).2 e.inode))
      = (enabledKinds bothOptions).map some) ∧
    ((locateChildren
          { user := 0, group := 0, inodes := [], allocatableInode := 2,
            sizeMap := [], options := bothOptions } workLeaf 1).1.length =
      (if bothOptions.contentFiles then 1 else 0) +
        (if bothOptions.firstLineFiles then 1 else 0)) ∧
    (∀ e ∈ (locateChildren
          { user := 0, group := 0, inodes := [], allocatableInode := 2,
            sizeMap := [], options := bothOptions } workLeaf 1).1,
      e.dtype = DirentType.file ∧
        Option.map InodeInfo.secret (lookupInode (locateChildren
            { user := 0, group := 0, inodes := [], allocatableInode := 2,
              sizeMap := [], options := bothOptions } workLeaf 1).2 e.inode)
          = some workLeaf.secret) ∧
    (∀ u g tree, newPassFS u g (.ok tree)
        { contentFiles := false, firstLineFiles := false } =
      .ok (buildFS u g tree { contentFiles := false, firstLineFiles := false }))) :=
  ⟨by decide,
    c7_leaf_projection_entries
      { user := 0, group := 0, inodes := [], allocatableInode := 2,
        sizeMap := [], options := bothOptions } workLeaf 1 (by decide)⟩

/-- C2: the scenario leaf email/work with body "secret123\nuser@x.com\n"
and both projections enabled: listing email (inode 4) yields work.contents
(inode 2) and work.first-line (inode 3); the computed sizes are 21 and 10
(the first line including its trailing newline); reading work.contents over
[0, 21) returns the body verbatim and reading work.first-line returns
"secret123\n".  The first-line collaborator and two-argument size
collaborator are the spec-modelled specGetSecretFirstLine and
specGetSecretSize. -/
theorem c2_first_line_scenario :
    readDir (fun _ => 30) scenarioFS 100 4 0 =
      .ok ([{ offset := 1, inode := 2, name := "work.contents", dtype := .file },
            { offset := 2, inode := 3, name := "work.first-line", dtype := .file }], 60) ∧
    (getSize (specGetSecretSize scenarioGetSecret) scenarioFS 2).1 = .ok 21 ∧
    (getSize (specGetSecretSize scenarioGetSecret) scenarioFS 3).1 = .ok 10 ∧
    scenarioBody.length = 21 ∧
    readFile scenarioGetSecret (specGetSecretFirstLine scenarioGetSecret) scenarioFS 2 0 21 =
      .ok scenarioBody ∧
    readFile scenarioGetSecret (specGetSecretFirstLine scenarioGetSecret) scenarioFS 3 0 10 =
      .ok (asciiBytes "secret123\n") ∧
    (asciiBytes "secret123\n").length = 10 := by
  refine ⟨by decide, by decide, by decide, by decide, by decide, by decide, by decide⟩

/-- C3 counterexample: on the built scenario filesystem the file inode 2
backs a 21-byte secret and getSize yields 21, yet getAttributes reports the
stored size 0 — it never consults the size cache or the collaborator, so it
does not return the value getSize yields. -/
theorem c3_attributes_size_counterexample :
    getInodeAttributes scenarioFS 0 2 =
      .ok ({ size := 0, nlink := 1, mode := filePermission, atime := 0, mtime := 0,
             crtime := 0, uid := 0, gid := 0 }, attributeCacheHour) ∧
    (getSize (specGetSecretSize scenarioGetSecret) scenarioFS 2).1 = .ok 21 ∧
    (0 : Nat) ≠ 21 := by
  refine ⟨by decide, by decide, by decide⟩

/-- C3 amended: getAttributes on an existing inode returns the stored
mode/uid/gid/link-count with all three timestamps freshly stamped and a
one-hour validity, and NotFound for a non-existent id; the size field is the
stored attribute size (which the build pass leaves at zero), not the
cached/computed secret size. -/
theorem c3_attributes_stored_not_cached (fs : PassFS) (now id : Nat)
    (info : InodeInfo) (h : lookupInode fs id = some info) :
    ∃ a, getInodeAttributes fs now id = .ok (a, now + attributeCacheHour) ∧
      a.nlink = info.attributes.nlink ∧ a.mode = info.attributes.mode ∧
      a.uid = fs.user ∧ a.gid = fs.group ∧
      a.atime = now ∧ a.mtime = now ∧ a.crtime = now ∧
      a.size = info.attributes.size ∧
      (∀ id2, lookupInode fs id2 = none →
        getInodeAttributes fs now id2 = .error .enoent) := by
  refine ⟨patchAttributes fs now info.attributes, ?_, ?_, ?_, ?_, ?_, ?_, ?_, ?_, ?_, ?_⟩ <;>
    simp [getInodeAttributes, patchAttributes, h]
  intro id2 h2
  simp [getInodeAttributes, h2]

/-- C3 amended witness: the scenario filesystem at inode 2. -/
theorem c3_attributes_witness :
    lookupInode scenarioFS 2 = some workContentsInfo ∧
    (∃ a, getInodeAttributes scenarioFS 5 2 = .ok (a, 5 + attributeCacheHour) ∧
      a.nlink = workContentsInfo.attributes.nlink ∧
      a.mode = workContentsInfo.attributes.mode ∧
      a.uid = scenarioFS.user ∧ a.gid = scenarioFS.group ∧
      a.atime = 5 ∧ a.mtime = 5 ∧ a.crtime = 5 ∧
      a.size = workContentsInfo.attributes.size ∧
      (∀ id2, lookupInode scenarioFS id2 = none →
        getInodeAttributes scenarioFS 5 id2 = .error .enoent)) :=
  ⟨by decide, c3_attributes_stored_not_cached scenarioFS 5 2 workContentsInfo (by decide)⟩

/-- C9: lookup computes and caches a size for every resolved child, even a
directory: with the child uncached, the collaborator is invoked exactly once
on the directory's backing secret whatever it returns; on success the result
is cached under the directory's inode id and the entry is returned with that
size; on failure the whole lookup fails. -/
theorem c9_lookup_sizes_directories
    (getSecretSizeFn : String → NodeType → Except String Nat)
    (fs : PassFS) (now parent : Nat) (name : String)
    (pinfo cinfo : InodeInfo) (cid : Nat)
    (hp : lookupInode fs parent = some pinfo)
    (hfind : findChildInode name pinfo.children = .ok cid)
    (hci : lookupInode fs cid = some cinfo)
    (_hdir : cinfo.dir = true)
    (hcache : lookupSize fs cid = none) :
    ((lookUpInode getSecretSizeFn fs now parent name).2.2 = 1) ∧
    (∀ v, getSecretSizeFn cinfo.secret cinfo.inodeType = .ok v →
      lookUpInode getSecretSizeFn fs now parent name =
        (.ok { child := cid,
               attributes := patchAttributes fs now { cinfo.attributes with size := v },
               attributesExpiration := now + attributeCacheHour },
          { fs with sizeMap := (cid, v) :: fs.sizeMap }, 1) ∧
      lookupSize { fs with sizeMap := (cid, v) :: fs.sizeMap } cid = some v) ∧
    (∀ e, getSecretSizeFn cinfo.secret cinfo.inodeType = .error e →
      ∃ m, lookUpInode getSecretSizeFn fs now parent name = (.error (.msg m), fs, 1)) := by
  refine ⟨?_, ?_, ?_⟩
  · cases horacle : getSecretSizeFn cinfo.secret cinfo.inodeType with
    | error e =>
      simp [lookUpInode, hp, hfind, getSize, hcache, hci, horacle]
    | ok v =>
      simp [lookUpInode, hp, hfind, getSize, hcache, hci, horacle]
  · intro v horacle
    constructor
    · simp [lookUpInode, hp, hfind, getSize, hcache, hci, horacle]
    · simp [lookupSize, lookupA]
  · intro e horacle
    refine ⟨"error determining size for secret " ++ cinfo.secret ++ ": " ++ e, ?_⟩
    simp [lookUpInode, hp, hfind, getSize, hcache, hci, horacle]

/-- The inode record of the email directory in the scenario. -/
def emailDirInfo : InodeInfo :=
  { attributes := { nlink := 1, mode := dirPermission ||| modeDirBit }, dir := true,
    children := [{ offset := 1, inode := 2, name := "work.contents", dtype := .file },
                 { offset := 2, inode := 3, name := "work.first-line", dtype := .file }],
    secret := "email" }

/-- The root inode record of the scenario. -/
def scenarioRootInfo : InodeInfo :=
  { attributes := { nlink := 1, mode := dirPermission ||| modeDirBit }, dir := true,
    children := [{ offset := 1, inode := 4, name := "email", dtype := .directory }] }

/-- C9 witness: looking up the directory name email under the scenario root
with a failing collaborator: exactly one invocation, and the lookup fails. -/
theorem c9_lookup_witness :
    lookupInode scenarioFS 1 = some scenarioRootInfo ∧
    findChildInode "email" scenarioRootInfo.children = .ok 4 ∧
    lookupInode scenarioFS 4 = some emailDirInfo ∧
    emailDirInfo.dir = true ∧
    lookupSize scenarioFS 4 = none ∧
    (((lookUpInode (fun _ _ => .error "gpg failure") scenarioFS 7 1 "email").2.2 = 1) ∧
      (∀ v, (fun (_ : String) (_ : NodeType) => (.error "gpg failure" : Except String Nat))
            emailDirInfo.secret emailDirInfo.inodeType = .ok v →
        lookUpInode (fun _ _ => .error "gpg failure") scenarioFS 7 1 "email" =
          (.ok { child := 4,
                 attributes := patchAttributes scenarioFS 7 { emailDirInfo.attributes with size := v },
                 attributesExpiration := 7 + attributeCacheHour },
            { scenarioFS with sizeMap := (4, v) :: scenarioFS.sizeMap }, 1) ∧
        lookupSize { scenarioFS with sizeMap := (4, v) :: scenarioFS.sizeMap } 4 = some v) ∧
      (∀ e, (fun (_ : String) (_ : NodeType) => (.error "gpg failure" : Except String Nat))
            emailDirInfo.secret emailDirInfo.inodeType = .error e →
        ∃ m, lookUpInode (fun _ _ => .error "gpg failure") scenarioFS 7 1 "email" =
          (.error (.msg m), scenarioFS, 1))) :=
  ⟨by decide, by decide, by decide, by decide, by decide,
    c9_lookup_sizes_directories (fun _ _ => .error "gpg failure") scenarioFS 7 1 "email"
      scenarioRootInfo emailDirInfo 4 (by decide) (by decide) (by decide) (by decide) (by decide)⟩

/-- Taking a list as long as one of its own prefixes reproduces that
prefix. -/
theorem take_length_take {α : Type} (l : List α) (m : Nat) :
    l.take (l.take m).length = l.take m := by
  rcases Nat.le_total m l.length with h | h
  · rw [List.length_take, Nat.min_eq_left h]
  · rw [List.length_take, Nat.min_eq_right h, List.take_length, List.take_of_length_le h]

/-- Entries emitted by ReadDir never carry the sentinel offset 0: such
pseudo-entries are skipped, not emitted. -/
theorem readDir_ok_no_sentinel (direntSize : Dirent → Nat) (fs : PassFS)
    (cap id cursor : Nat) (L : List Dirent) (br : Nat)
    (h : readDir direntSize fs cap id cursor = .ok (L, br)) :
    ∀ e ∈ L, e.offset ≠ 0 := by
  simp only [readDir] at h
  split at h
  · cases h
  · split at h
    · cases h
    · split at h
      · cases h
      · rename_i info hinfo hdir hcur
        injection h with h1
        obtain ⟨m, hm⟩ :=
          writeDirents_emitted_take direntSize cap (info.children.drop cursor) 0
        have hL : L = (writeDirents direntSize cap 0 (info.children.drop cursor)).1 := by
          rw [h1]
        intro e he
        rw [hL, hm] at he
        have := List.mem_filter.mp (List.mem_of_mem_take he)
        simpa [bne_iff_ne] using this.2

/-- C5: directory listing cursors are continuous on a built filesystem.  A
call at any in-range cursor c succeeds, emits a contiguous prefix of the
remaining suffix of the children list (no entry skipped or duplicated, in
original offset order); when anything was emitted, the offset cursor carried
by the last emitted entry is exactly c plus the number of entries emitted,
and resuming there (with room for the rest) emits exactly the remaining
entries, so the two calls together reproduce the whole suffix from c for any
split point; and, on any state whatever, an entry carrying the sentinel
offset 0 is never emitted. -/
theorem c5_readdir_resume (direntSize : Dirent → Nat) (u g : Nat) (tree : PassNode)
    (opts : PassFsOptions) (id : Nat) (info : InodeInfo) (cap c : Nat)
    (hl : lookupInode (buildFS u g tree opts) id = some info)
    (hdir : info.dir = true)
    (hc : c ≤ info.children.length)
    (hpos : ∀ e, 0 < direntSize e) :
    ∃ L br, readDir direntSize (buildFS u g tree opts) cap id c = .ok (L, br) ∧
      L = (info.children.drop c).take L.length ∧
      (∀ e, L.getLast? = some e → e.offset = c + L.length) ∧
      readDir direntSize (buildFS u g tree opts)
          (((info.children.drop (c + L.length)).map direntSize).sum) id (c + L.length) =
        .ok (info.children.drop (c + L.length),
          ((info.children.drop (c + L.length)).map direntSize).sum) ∧
      L ++ info.children.drop (c + L.length) = info.children.drop c ∧
      (∀ (fs2 : PassFS) (cap2 id2 cursor2 : Nat) (L2 : List Dirent) (br2 : Nat),
        readDir direntSize fs2 cap2 id2 cursor2 = .ok (L2, br2) →
        ∀ e ∈ L2, e.offset ≠ 0) := by
  have hoffs := lookupInode_buildFS_wf u g tree opts id info hl hdir
  have hno0 : ∀ c', ∀ e ∈ info.children.drop c', (e.offset != 0) = true := by
    intro c' e he
    have hmem : e ∈ info.children := List.mem_of_mem_drop he
    have hoe : e.offset ∈ List.range' 1 info.children.length := by
      rw [← hoffs]
      exact List.mem_map_of_mem _ hmem
    rw [List.mem_range'_1] at hoe
    simp only [bne_iff_ne]
    omega
  have hfilter : ∀ c', (info.children.drop c').filter (fun e => e.offset != 0) =
      info.children.drop c' := fun c' => List.filter_eq_self.mpr (hno0 c')
  have hlen_drop : ∀ c', (info.children.drop c').length = info.children.length - c' := by
    intro c'
    simp
  have hro : readDir direntSize (buildFS u g tree opts) cap id c =
      .ok (writeDirents direntSize cap 0 (info.children.drop c)) := by
    simp [readDir, hl, hdir, Nat.not_lt.mpr hc]
  obtain ⟨m, hm⟩ := writeDirents_emitted_take direntSize cap (info.children.drop c) 0
  rw [hfilter c] at hm
  have hLtake : (writeDirents direntSize cap 0 (info.children.drop c)).1 =
      (info.children.drop c).take
        (writeDirents direntSize cap 0 (info.children.drop c)).1.length := by
    rw [hm]
    exact (take_length_take _ m).symm
  have hLlen_le : (writeDirents direntSize cap 0 (info.children.drop c)).1.length ≤
      info.children.length - c := by
    rw [hm, ← hlen_drop c]
    exact List.length_take_le' _ _
  refine ⟨(writeDirents direntSize cap 0 (info.children.drop c)).1,
    (writeDirents direntSize cap 0 (info.children.drop c)).2, by rw [hro], hLtake,
    ?_, ?_, ?_, ?_⟩
  · have hLoff : (writeDirents direntSize cap 0 (info.children.drop c)).1.map
        (fun e => e.offset) =
        List.range' (1 + c) (writeDirents direntSize cap 0 (info.children.drop c)).1.length := by
      rw [hm, List.map_take, List.map_drop, hoffs,
        range'_drop_eq 1 info.children.length c hc, range'_take_min]
      congr 1
      simp
    intro e he
    have h1 : ((writeDirents direntSize cap 0 (info.children.drop c)).1.map
        (fun e => e.offset)).getLast? = some e.offset := by
      rw [List.getLast?_map, he]
      rfl
    rw [hLoff, List.getLast?_range'] at h1
    by_cases h0 : (writeDirents direntSize cap 0 (info.children.drop c)).1.length = 0
    · rw [if_pos h0] at h1
      cases h1
    · rw [if_neg h0] at h1
      have := Option.some.inj h1
      omega
  · have hc2 : c + (writeDirents direntSize cap 0 (info.children.drop c)).1.length ≤
        info.children.length := by omega
    have hall := writeDirents_all direntSize
      (((info.children.drop
          (c + (writeDirents direntSize cap 0 (info.children.drop c)).1.length)).map
        direntSize).sum)
      (info.children.drop
        (c + (writeDirents direntSize cap 0 (info.children.drop c)).1.length)) 0
      (fun e _ => hpos e) (by rw [hfilter]; omega)
    rw [hfilter] at hall
    rw [List.map_drop] at hall
    simp [readDir, hl, hdir, Nat.not_lt.mpr hc2, hall]
  · rw [← List.drop_drop]
    nth_rewrite 1 [hLtake]
    exact List.take_append_drop _ _
  · intro fs2 cap2 id2 cursor2 L2 br2 h2
    exact readDir_ok_no_sentinel direntSize fs2 cap2 id2 cursor2 L2 br2 h2

/-- C5 witness: the scenario email directory, entries 30 bytes each, a
destination of 30 bytes (so only the first entry fits and the listing is
split), resumed from the returned cursor. -/
theorem c5_readdir_witness :
    lookupInode (buildFS 0 0 scenarioTree bothOptions) 4 = some emailDirInfo ∧
    emailDirInfo.dir = true ∧
    0 ≤ emailDirInfo.children.length ∧
    (∀ e : Dirent, 0 < (fun (_ : Dirent) => (30 : Nat)) e) ∧
    (∃ L br, readDir (fun (_ : Dirent) => (30 : Nat)) (buildFS 0 0 scenarioTree bothOptions)
          30 4 0 = .ok (L, br) ∧
      L = (emailDirInfo.children.drop 0).take L.length ∧
      (∀ e, L.getLast? = some e → e.offset = 0 + L.length) ∧
      readDir (fun (_ : Dirent) => (30 : Nat)) (buildFS 0 0 scenarioTree bothOptions)
          (((emailDirInfo.children.drop (0 + L.length)).map (fun (_ : Dirent) => (30 : Nat))).sum)
          4 (0 + L.length) =
        .ok (emailDirInfo.children.drop (0 + L.length),
          ((emailDirInfo.children.drop (0 + L.length)).map (fun (_ : Dirent) => (30 : Nat))).sum) ∧
      L ++ emailDirInfo.children.drop (0 + L.length) = emailDirInfo.children.drop 0 ∧
      (∀ (fs2 : PassFS) (cap2 id2 cursor2 : Nat) (L2 : List Dirent) (br2 : Nat),
        readDir (fun (_ : Dirent) => (30 : Nat)) fs2 cap2 id2 cursor2 = .ok (L2, br2) →
        ∀ e ∈ L2, e.offset ≠ 0)) :=
  ⟨by decide, by decide, by decide, fun e => by norm_num,
    c5_readdir_resume (fun (_ : Dirent) => (30 : Nat)) 0 0 scenarioTree bothOptions 4
      emailDirInfo 30 0 (by decide) (by decide) (by decide) (fun e => by norm_num)⟩

end Passfuse
